import Mathlib

/-!
Verification of the job-ranking and match-scoring core (`aiService.js`) of the
JobApplier repository.  The JavaScript source is shallowly embedded: strings are
Lean `String`s (ASCII semantics for lower-casing and whitespace), JS numbers are
`Int`/`ℚ` (all arithmetic in the core is exact on these inputs), JS `undefined`
is `Option.none`, and `Date` values are epoch-millisecond integers with the
current time passed explicitly.
-/

namespace JobApplier

/-- JS `(text || "").toLowerCase()` (the `normalize` helper of the source),
implemented character-wise (ASCII lower-casing). -/
def normalize (text : String) : String := String.mk (text.data.map Char.toLower)

/-- JS `String.prototype.trim` (ASCII whitespace), character-wise. -/
def jsTrim (s : String) : String :=
  String.mk (((s.data.dropWhile Char.isWhitespace).reverse.dropWhile Char.isWhitespace).reverse)

/-- Split a character list at every occurrence of `sep` (JS `split(sep)` for a
single-character separator). -/
def splitOnCharAux (sep : Char) : List Char → List Char → List String
  | [], acc => [String.mk acc.reverse]
  | c :: rest, acc =>
    if c = sep then String.mk acc.reverse :: splitOnCharAux sep rest []
    else splitOnCharAux sep rest (c :: acc)

/-- JS `s.split(",")` and friends. -/
def splitOnChar (sep : Char) (s : String) : List String := splitOnCharAux sep s.data []

/-- Split a character list at every whitespace character. -/
def splitWsAux : List Char → List Char → List String
  | [], acc => [String.mk acc.reverse]
  | c :: rest, acc =>
    if c.isWhitespace then String.mk acc.reverse :: splitWsAux rest []
    else splitWsAux rest (c :: acc)

/-- Character-wise whitespace split.  JS `split(/\s+/)` splits on maximal
whitespace runs; splitting at every whitespace character instead only inserts
extra empty tokens, which every consumer below ignores (they are shorter than
the length-2 threshold of the safety check). -/
def splitWs (s : String) : List String := splitWsAux s.data []

/-- JS `Array.from(new Set(arr))`: deduplicate, keeping first occurrences in order
(the `uniq` helper of the source). -/
def uniqAux (seen : List String) : List String → List String
  | [] => []
  | x :: xs => if x ∈ seen then uniqAux seen xs else x :: uniqAux (x :: seen) xs

/-- JS `uniq = (arr) => Array.from(new Set(arr))`. -/
def uniq (arr : List String) : List String := uniqAux [] arr

/-- JS `hay.includes(needle)`: substring containment. -/
def jsIncludes (hay needle : String) : Bool :=
  (List.range (hay.data.length + 1)).any (fun i => needle.data.isPrefixOf (hay.data.drop i))

/-- The fixed `KNOWN_SKILLS` vocabulary of the source, in source order. -/
def KNOWN_SKILLS : List String :=
  ["javascript", "typescript", "node", "react", "vue", "angular", "express",
   "mongo", "mongodb", "sql", "postgres", "mysql", "python", "django", "flask",
   "java", "c#", "go", "ruby", "php", "aws", "gcp", "azure", "docker",
   "kubernetes", "terraform", "ci", "cd", "git", "testing", "jest", "cypress",
   "playwright", "html", "css", "sass", "less", "graphql", "rest"]

/-- `extractJobSkills`: every vocabulary token contained in the lower-cased
description.  The source accumulates matches into a `Set` in vocabulary order;
since `KNOWN_SKILLS` is duplicate-free this equals a filter of the vocabulary. -/
def extractJobSkills (jobDescription : String) : List String :=
  KNOWN_SKILLS.filter (fun skill => jsIncludes (normalize jobDescription) skill)

/-- `computeScore`: 0 on an empty input, otherwise the rounded percentage of
distinct normalized job skills present among the normalized resume skills,
clamped to [0, 100].  `Math.round` on non-negative rationals is `round`. -/
def computeScore (jobSkills resumeSkills : List String) : Int :=
  if jobSkills.length = 0 ∨ resumeSkills.length = 0 then 0
  else
    let jobSet := uniq (jobSkills.map normalize)
    let resumeSet := uniq (resumeSkills.map normalize)
    let matched := (jobSet.filter (fun skill => resumeSet.contains skill)).length
    let score := round ((matched : ℚ) / (jobSet.length : ℚ) * 100)
    max 0 (min 100 score)

/-- Leftmost-match helper: consume a literal, returning the remainder on success. -/
def dropLit : List Char → List Char → Option (List Char)
  | [], cs => some cs
  | _ :: _, [] => none
  | l :: ls, c :: cs => if c = l then dropLit ls cs else none

/-- Digits of a decimal numeral to a natural number (JS `parseInt` on a digit run). -/
def digitsToNat (ds : List Char) : Nat :=
  ds.foldl (fun acc c => acc * 10 + (c.toNat - '0'.toNat)) 0

/-- Tail of the regex `(\d+)\+?\s*years?\s+of\s+experience` after the digit group:
optional `+`, optional whitespace, `year`, optional `s`, whitespace, `of`,
whitespace, `experience`.  Each optional piece is deterministic here because the
character that follows it can never also start the next piece. -/
def yearsOfExperienceTail (cs : List Char) : Bool :=
  let cs1 := match cs with
    | '+' :: rest => rest
    | _ => cs
  let cs2 := cs1.dropWhile Char.isWhitespace
  match dropLit "year".data cs2 with
  | none => false
  | some cs3 =>
    let cs4 := match cs3 with
      | 's' :: rest => rest
      | _ => cs3
    match cs4 with
    | c :: _ =>
      if c.isWhitespace then
        match dropLit "of".data (cs4.dropWhile Char.isWhitespace) with
        | none => false
        | some cs5 =>
          match cs5 with
          | d :: _ =>
            if d.isWhitespace then
              (dropLit "experience".data (cs5.dropWhile Char.isWhitespace)).isSome
            else false
          | [] => false
      else false
    | [] => false

/-- Leftmost match of `(\d+)\+?\s*years?\s+of\s+experience`: scan start positions
left to right; at a digit, the greedy digit group is the maximal digit run. -/
def yearsOfExperienceScan : List Char → Option Nat
  | [] => none
  | c :: rest =>
    if c.isDigit then
      if yearsOfExperienceTail ((c :: rest).dropWhile Char.isDigit) then
        some (digitsToNat ((c :: rest).takeWhile Char.isDigit))
      else yearsOfExperienceScan rest
    else yearsOfExperienceScan rest

/-- `const yearMatch = jobDescription.match(/(\d+)\+?\s*years?\s+of\s+experience/i)`
then `yearMatch ? parseInt(yearMatch[1]) : 0`.  The `i` flag is modelled by
scanning the lower-cased description. -/
def requiredYearsOf (jobDescription : String) : Nat :=
  (yearsOfExperienceScan (normalize jobDescription).data).getD 0

/-- `calculateExperienceFit` on a present (string) job description.  JS numbers
are modelled as `Int`; `yearsOfExperience` defaults to 0 at the call sites. -/
def calculateExperienceFit (jobDescription : String) (yearsOfExperience : Int) : Int :=
  let requiredYears : Int := requiredYearsOf jobDescription
  if requiredYears = 0 then 75
  else if yearsOfExperience ≥ requiredYears then 100
  else if yearsOfExperience ≥ requiredYears - 1 then 85
  else if yearsOfExperience ≥ requiredYears - 2 then 70
  else max 30 (100 - (requiredYears - yearsOfExperience) * 15)

/-- `calculateExperienceFit` as invoked: the source has no guard on
`jobDescription`, so `jobDescription.match(...)` raises a `TypeError` when the
argument is `undefined`.  The raised exception is modelled as `none`. -/
def calculateExperienceFitJS (jobDescription : Option String) (yearsOfExperience : Int) :
    Option Int :=
  jobDescription.map (fun jd => calculateExperienceFit jd yearsOfExperience)

/-- JS falsiness of an optional string argument: `undefined` or `""`. -/
def strFalsy (s : Option String) : Bool := s.getD "" = ""

/-- `calculateSkillMatch`: 0 on falsy description / missing or empty skills, 50
when the job mentions no known skill, otherwise the rounded fraction of job
skills matched by bidirectional substring containment against resume skills. -/
def calculateSkillMatch (jobDescription : Option String) (resumeSkills : Option (List String)) :
    Int :=
  if strFalsy jobDescription ∨ resumeSkills = none ∨ (resumeSkills.getD []).length = 0 then 0
  else
    let jobSkills := extractJobSkills (jobDescription.getD "")
    if jobSkills.length = 0 then 50
    else
      let matchedSkills := jobSkills.filter (fun skill =>
        (resumeSkills.getD []).any (fun userSkill =>
          jsIncludes (normalize userSkill) (normalize skill) ||
          jsIncludes (normalize skill) (normalize userSkill)))
      round ((matchedSkills.length : ℚ) / (jobSkills.length : ℚ) * 100)

/-- `calculateLocationMatch`.  `split(",")[i]` is `(splitOn ",")[i]?`; the JS
`===` on two possibly-`undefined` segments is `Option` equality (two strings
without a comma both yield `undefined` at index 1 and compare equal). -/
def calculateLocationMatch (jobLocation userLocation : Option String) : Int :=
  if strFalsy jobLocation ∨ strFalsy userLocation then 50
  else
    let jobLoc := normalize (jobLocation.getD "")
    let userLoc := normalize (userLocation.getD "")
    if jsIncludes jobLoc "remote" ∨ jsIncludes userLoc "remote" then 80
    else if jobLoc = userLoc then 100
    else if (splitOnChar ',' jobLoc)[0]? = (splitOnChar ',' userLoc)[0]? then 100
    else if (splitOnChar ',' jobLoc)[1]? = (splitOnChar ',' userLoc)[1]? then 70
    else 40

/-- Milliseconds per day, `1000 * 60 * 60 * 24`. -/
def msPerDay : Int := 1000 * 60 * 60 * 24

/-- `calculateRecency`: the posted date is an epoch-millisecond timestamp
(`none` for a missing date) and `now` is the clock reading (`new Date()`).
`Math.floor((now - posted) / msPerDay)` is flooring integer division.  The
final branch `Math.max(20, 100 - days / 3)` is exact rational arithmetic, so
the result type is `ℚ`. -/
def calculateRecency (jobPostedDate : Option Int) (now : Int) : ℚ :=
  match jobPostedDate with
  | none => 50
  | some posted =>
    let daysSincePosted : Int := Int.fdiv (now - posted) msPerDay
    if daysSincePosted ≤ 7 then 100
    else if daysSincePosted ≤ 30 then 85
    else if daysSincePosted ≤ 60 then 70
    else if daysSincePosted ≤ 90 then 50
    else max 20 (100 - (daysSincePosted : ℚ) / 3)

/-- Sentence-terminal punctuation class `[.!?]` of the source's regexes. -/
def isSentencePunct (c : Char) : Bool := c = '.' || c = '!' || c = '?'

/-- The regex character class `[a-z]`. -/
def isAsciiLower (c : Char) : Bool := 'a' ≤ c && c ≤ 'z'

/-- `answer.split(/(?<=[.!?])\s+/)`: split at each maximal whitespace run whose
immediately preceding character is sentence punctuation.  `acc` holds the
current chunk reversed, so its head is the preceding character; the flag marks
being inside the whitespace run that triggered a split (the run is consumed
without further checks, which equals dropping the maximal run at once). -/
def splitSentencesAux : Bool → List Char → List Char → List String
  | _, [], acc => [String.mk acc.reverse]
  | true, c :: rest, acc =>
    if c.isWhitespace then splitSentencesAux true rest acc
    else splitSentencesAux false rest (c :: acc)
  | false, c :: rest, acc =>
    if c.isWhitespace && (match acc with
      | p :: _ => isSentencePunct p
      | [] => false) then
      String.mk acc.reverse :: splitSentencesAux true rest []
    else splitSentencesAux false rest (c :: acc)

/-- Sentence splitting of the source's step 2. -/
def splitSentences (s : String) : List String := splitSentencesAux false s.data []

/-- `replace(/\s+/g, " ")`: collapse each maximal whitespace run to one space.
The flag marks being inside a run whose space was already emitted. -/
def collapseWsAux : Bool → List Char → List Char
  | _, [] => []
  | inRun, c :: rest =>
    if c.isWhitespace then
      if inRun then collapseWsAux true rest else ' ' :: collapseWsAux true rest
    else c :: collapseWsAux false rest

/-- String form of `collapseWsAux`. -/
def collapseWs (s : String) : String := String.mk (collapseWsAux false s.data)

/-- `replace(/([.!?])\s*([a-z])/g, "$1 $2")`: after sentence punctuation, an
optional whitespace run followed by a lower-case letter becomes a single space
before that letter, and the scan resumes after the letter.  The state buffers a
seen punctuation character and the (reversed) whitespace run after it; when the
lookahead fails, the buffered characters are emitted unchanged and the failing
character is examined as a fresh match start (whitespace positions cannot start
a match). -/
def fixPunctAux : Option (Char × List Char) → List Char → List Char
  | none, [] => []
  | some (p, ws), [] => p :: ws.reverse
  | none, c :: rest =>
    if isSentencePunct c then fixPunctAux (some (c, [])) rest
    else c :: fixPunctAux none rest
  | some (p, ws), c :: rest =>
    if c.isWhitespace then fixPunctAux (some (p, c :: ws)) rest
    else if isAsciiLower c then p :: ' ' :: c :: fixPunctAux none rest
    else if isSentencePunct c then (p :: ws.reverse) ++ fixPunctAux (some (c, [])) rest
    else (p :: ws.reverse) ++ (c :: fixPunctAux none rest)

/-- String form of `fixPunctAux`. -/
def fixPunct (s : String) : String := String.mk (fixPunctAux none s.data)

/-- Lines 403-408 of the source: tokenize the normalized original and improved
answers on whitespace; every improved token of length ≥ 2 must already occur in
the original.  The JS `Set`s are used only for membership, so plain lists give
the same answer. -/
def allWordsExist (answer improved : String) : Bool :=
  (splitWs (normalize improved)).all (fun word =>
    word.length < 2 || (splitWs (normalize answer)).contains word)

/-- Lines 410-415 of the source, the revert of the safety check: keep the
improved text only when `allWordsExist` holds, otherwise fall back to the
trimmed original. -/
def safetyRevert (answer improved : String) : String :=
  if allWordsExist answer improved then improved else answer

/-- The data payload of `improveAnswer`'s result (the `formatAIResponse`
envelope of type/message/timestamp metadata carries no further computation and
is not modelled; the early-return branch of the source also omits it). -/
structure AnswerImprovement where
  original : String
  improved : String
  mentionedJobSkills : List String
  confidence : Int
  changes : List String
deriving Repr, DecidableEq

/-- The reorder change note (JS template literal with the skill count). -/
def reorderNote (k : Nat) : String :=
  s!"Reordered sentences to highlight {k} job-relevant skill(s) first"

/-- `improveAnswer`, the full pipeline: early return on a falsy answer, trim,
mention detection, sentence reordering, formatting clean-up, confidence
adjustment, the safety check (revert if a token of length ≥ 2 was introduced),
the no-changes note, and the final clamp of confidence to [0, 100]. -/
def improveAnswer (originalAnswer jobDescription : String) : AnswerImprovement :=
  if originalAnswer = "" then
    { original := originalAnswer, improved := originalAnswer, mentionedJobSkills := [],
      confidence := 0, changes := [] }
  else
    let answer := jsTrim originalAnswer
    let jobSkills := extractJobSkills jobDescription
    let answerLower := normalize answer
    let mentionedJobSkills := jobSkills.filter (fun skill =>
      jsIncludes answerLower (normalize skill))
    let confidence0 : Int :=
      50 + (if 0 < mentionedJobSkills.length
            then min 20 ((mentionedJobSkills.length : Int) * 5) else 0)
    let sentences := splitSentences answer
    let skillSentences := sentences.filter (fun s =>
      mentionedJobSkills.any (fun skill => jsIncludes (normalize s) (normalize skill)))
    let otherSentences := sentences.filter (fun s => !skillSentences.contains s)
    let doReorder : Bool := decide (1 < sentences.length) &&
      decide (0 < skillSentences.length) &&
      decide (skillSentences.length < sentences.length)
    let improved1 := if doReorder
      then String.intercalate " " (skillSentences ++ otherSentences) else answer
    let changes1 : List String := if doReorder then [reorderNote mentionedJobSkills.length] else []
    let confidence1 : Int := if doReorder then confidence0 + 10 else confidence0
    let improved2 := fixPunct (collapseWs (jsTrim improved1))
    let changes2 := if improved2 ≠ answer
      then changes1 ++ ["Cleaned up formatting and spacing"] else changes1
    let confidence3 : Int :=
      if mentionedJobSkills.length = 0 then max 30 (confidence1 - 20)
      else if 3 ≤ mentionedJobSkills.length then min 95 (confidence1 + 15)
      else confidence1
    let changes3 :=
      if mentionedJobSkills.length = 0 then changes2 ++ ["No job skills mentioned - improvement limited"]
      else if 3 ≤ mentionedJobSkills.length then changes2 ++ ["Answer is highly relevant to job description"]
      else changes2
    let improved4 := safetyRevert answer improved2
    let confidence4 : Int := if allWordsExist answer improved2 then confidence3
      else max 20 (confidence3 - 30)
    let changes4 := if allWordsExist answer improved2 then changes3
      else changes3 ++ ["Safety check: minimal modification applied"]
    let confidence5 : Int := if changes4 = [] then min 100 (confidence4 + 10) else confidence4
    let changes5 := if changes4 = [] then ["Answer is already well-optimized"] else changes4
    { original := answer, improved := improved4, mentionedJobSkills := mentionedJobSkills,
      confidence := max 0 (min 100 confidence5), changes := changes5 }

/-- Insert `a` after every element `b` of the (sorted) list with `le b a`.
With a total relation this is the insertion step of insertion sort. -/
def insertBy {α : Type} (le : α → α → Bool) (a : α) : List α → List α
  | [] => [a]
  | b :: bs => if le b a then b :: insertBy le a bs else a :: b :: bs

/-- The index-decorated order: element order first, original index to break
ties.  For a total preorder `le` this is a total order. -/
def decoratedLe {α : Type} (le : α → α → Bool) (p q : Nat × α) : Bool :=
  le p.2 q.2 && (!(le q.2 p.2) || decide (p.1 ≤ q.1))

/-- JS `Array.prototype.sort` with a consistent comparator is a stable sort
(ES2019).  A stable sort by a total preorder `le` equals sorting the
index-decorated list by the lexicographic `decoratedLe le` — a total order, so
any comparison sort realizes it; insertion sort keeps every definition
reducible. -/
def jsStableSort {α : Type} (le : α → α → Bool) (l : List α) : List α :=
  ((l.enum).foldl (fun acc p => insertBy (decoratedLe le) p acc) []).map Prod.snd

/-- A job record.  The named fields are the ones this core reads; `extra`
stands for all remaining properties of the open JS object, which the spread in
`rankJobs` copies verbatim. -/
structure Job where
  title : Option String := none
  company : Option String := none
  location : Option String := none
  description : Option String := none
  postedDate : Option Int := none
  extra : List (String × String) := []
deriving Repr, DecidableEq

/-- A stored resume/profile object; every field may be absent. -/
structure ExperienceRole where
  title : Option String := none
  company : Option String := none
  startDate : Option String := none
  endDate : Option String := none
  bullets : Option (List String) := none
deriving Repr, DecidableEq

/-- The resume object: only the fields this core reads. -/
structure Resume where
  summary : Option String := none
  parsedSkills : Option (List String) := none
  originalParsedSkills : Option (List String) := none
  parsedExperience : Option (List ExperienceRole) := none
  originalText : Option String := none
  yearsOfExperience : Option Int := none
deriving Repr, DecidableEq

/-- The per-factor score record of `rankJobs` (`scoreBreakdown`).  The first
three factors are integers; recency can be fractional (see
`calculateRecency`). -/
structure ScoreBreakdown where
  skillMatch : Int
  experienceFit : Int
  location : Int
  recency : ℚ
deriving Repr, DecidableEq

/-- The four ranking weights. -/
structure Weights where
  skillMatch : ℚ
  experienceFit : ℚ
  location : ℚ
  recency : ℚ
deriving Repr, DecidableEq

/-- Caller-supplied weight overrides: a partial map over the four weight keys
(spec §6: four optional floats). -/
structure CustomWeights where
  skillMatch : Option ℚ := none
  experienceFit : Option ℚ := none
  location : Option ℚ := none
  recency : Option ℚ := none
deriving Repr, DecidableEq

/-- One entry of `rankJobs`'s output: `{ ...job, rankingScore, scoreBreakdown,
weights, explanation, rank }`.  The spread copies every field of the input job,
modelled by the nested `job` record. -/
structure RankedJob where
  job : Job
  rankingScore : Int
  scoreBreakdown : ScoreBreakdown
  weights : Weights
  explanation : String
  rank : Nat
deriving Repr, DecidableEq

instance : Inhabited RankedJob :=
  ⟨{ job := {}, rankingScore := 0, scoreBreakdown := ⟨0, 0, 0, 0⟩,
     weights := ⟨0, 0, 0, 0⟩, explanation := "", rank := 0 }⟩

/-- Default weights overridden entry-wise by the caller's map
(`{ skillMatch: 0.4, experienceFit: 0.25, location: 0.2, recency: 0.15,
...customWeights }`). -/
def overriddenWeights (customWeights : CustomWeights) : Weights :=
  { skillMatch := customWeights.skillMatch.getD 0.4,
    experienceFit := customWeights.experienceFit.getD 0.25,
    location := customWeights.location.getD 0.2,
    recency := customWeights.recency.getD 0.15 }

/-- `Object.values(weights).reduce((a, b) => a + b, 0)`. -/
def weightSum (w : Weights) : ℚ := w.skillMatch + w.experienceFit + w.location + w.recency

/-- Lines 519-532 of the source: overridden weights divided by their sum.  In
JS an all-zero sum produces `NaN` entries (0/0); in this exact model division
by zero yields 0 — in both cases the four entries do not sum to 1. -/
def effectiveWeights (customWeights : CustomWeights) : Weights :=
  let w := overriddenWeights customWeights
  let s := weightSum w
  { skillMatch := w.skillMatch / s, experienceFit := w.experienceFit / s,
    location := w.location / s, recency := w.recency / s }

/-- Tail of the explanation regex `/(\d+)\+?\s*years?/` (case-sensitive, no
`of experience` part) after the digit group. -/
def yearsShortTail (cs : List Char) : Bool :=
  let cs1 := match cs with
    | '+' :: rest => rest
    | _ => cs
  let cs2 := cs1.dropWhile Char.isWhitespace
  (dropLit "year".data cs2).isSome

/-- Leftmost match of `/(\d+)\+?\s*years?/` on the raw description. -/
def yearsShortScan : List Char → Option Nat
  | [] => none
  | c :: rest =>
    if c.isDigit then
      if yearsShortTail ((c :: rest).dropWhile Char.isDigit) then
        some (digitsToNat ((c :: rest).takeWhile Char.isDigit))
      else yearsShortScan rest
    else yearsShortScan rest

/-- The skill-match explanation phrase (threshold-keyed). -/
def skillExplanation (skillScore : Int) : String :=
  if skillScore ≥ 80 then s!"Strong skill match ({skillScore}% of job skills found in your resume)"
  else if skillScore ≥ 60 then s!"Good skill match ({skillScore}% of job skills)"
  else if skillScore ≥ 40 then s!"Some relevant skills ({skillScore}%)"
  else s!"Limited skill overlap ({skillScore}%)"

/-- The experience explanation phrase.  The gap branch re-parses the raw
description with the short regex; it is only reachable with a present
description (a missing one scores 75 ≥ 70). -/
def expExplanation (expScore yearsOfExp : Int) (jobDescription : String) : String :=
  if expScore ≥ 90 then "Your experience meets or exceeds job requirements"
  else if expScore ≥ 70 then "Your experience is close to job requirements"
  else
    let req : Int := (yearsShortScan jobDescription.data).getD 0
    let gap := (yearsOfExp - req).natAbs
    s!"Experience gap of {gap} years"

/-- The location explanation phrase (absent when the score is below 40, which
cannot happen). -/
def locExplanationList (locScore : Int) : List String :=
  if locScore = 100 then ["Perfect location match"]
  else if locScore ≥ 70 then ["Good location fit"]
  else if locScore ≥ 40 then ["Location may require relocation"]
  else []

/-- The recency explanation phrase; the stale branch recomputes the day count
and is only reachable with a present posted date. -/
def recExplanationList (recScore : ℚ) (jobPostedDate : Option Int) (now : Int) : List String :=
  if recScore ≥ 85 then ["Recently posted - high priority"]
  else if recScore < 40 then
    let d := Int.fdiv (now - jobPostedDate.getD 0) msPerDay
    [s!"Posted {d} days ago"]
  else []

/-- The per-job body of `rankJobs`'s `.map`: the four sub-scores, the rounded
weighted composite, the explanation text, and the spread result with
`rank: 0`. -/
def scoreJob (normalizedWeights : Weights) (resumeSkills : List String) (yearsOfExp : Int)
    (userLocation : String) (now : Int) (job : Job) : RankedJob :=
  let skillScore := calculateSkillMatch (some (job.description.getD "")) (some resumeSkills)
  let expScore := calculateExperienceFit (job.description.getD "") yearsOfExp
  let locScore := calculateLocationMatch (some (job.location.getD "")) (some userLocation)
  let recScore := calculateRecency job.postedDate now
  let totalScore := round ((skillScore : ℚ) * normalizedWeights.skillMatch +
    (expScore : ℚ) * normalizedWeights.experienceFit +
    (locScore : ℚ) * normalizedWeights.location +
    recScore * normalizedWeights.recency)
  let explanation := String.intercalate " • "
    ([skillExplanation skillScore, expExplanation expScore yearsOfExp (job.description.getD "")]
      ++ locExplanationList locScore ++ recExplanationList recScore job.postedDate now)
  { job := job, rankingScore := totalScore,
    scoreBreakdown := { skillMatch := skillScore, experienceFit := expScore,
                        location := locScore, recency := recScore },
    weights := normalizedWeights, explanation := explanation, rank := 0 }

/-- `.sort((a, b) => b.rankingScore - a.rankingScore)`: the comparator orders
`a` before `b` iff `b.rankingScore < a.rankingScore`, and JS `sort` is stable. -/
def descLe (a b : RankedJob) : Bool := decide (b.rankingScore ≤ a.rankingScore)

/-- The sort stage of `rankJobs`. -/
def sortByScoreDesc (scored : List RankedJob) : List RankedJob := jsStableSort descLe scored

/-- The final `.map((job, index) => ({ ...job, rank: index + 1 }))`. -/
def assignRanks (sorted : List RankedJob) : List RankedJob :=
  sorted.mapIdx (fun index job => { job with rank := index + 1 })

/-- `rankJobs`.  `now` is the clock reading used for recency. -/
def rankJobs (jobs : List Job) (userResume : Resume) (userLocation : String)
    (customWeights : CustomWeights) (now : Int) : List RankedJob :=
  if jobs.length = 0 then []
  else
    let normalizedWeights := effectiveWeights customWeights
    let resumeSkills := userResume.parsedSkills.getD []
    let yearsOfExp := userResume.yearsOfExperience.getD 0
    assignRanks (sortByScoreDesc
      (jobs.map (scoreJob normalizedWeights resumeSkills yearsOfExp userLocation now)))

/-- The skill comparator key of `remodelResume`: index of the first job skill
with the same normalized form, or the 999 sentinel for unmatched skills. -/
def skillSortKey (jobSkills : List String) (a : String) : Nat :=
  match jobSkills.findIdx? (fun s => normalize s == normalize a) with
  | some i => i
  | none => 999

/-- The change-tracking record of `remodelResume`. -/
structure RemodelChanges where
  skillsReordered : Bool
  skillsHighlighted : List String
  experienceReordered : Bool
  sectionsReordered : List String
  bulletChanges : List String
deriving Repr, DecidableEq

/-- The note `Prioritized N job-relevant skills`. -/
def prioritizedNote (n : Nat) : String := s!"Prioritized {n} job-relevant skills"

/-- `generateChangeSummary`. -/
def generateChangeSummary (changes : RemodelChanges) : String :=
  let parts : List String :=
    (if changes.skillsReordered then [prioritizedNote changes.skillsHighlighted.length] else []) ++
    (if 0 < changes.sectionsReordered.length
     then ["Reordered sections for ATS optimization"] else [])
  if parts.length = 0 then "No changes needed - resume already optimized"
  else String.intercalate "; " parts

/-- `diff.skillsChanges` of `remodelResume`. -/
structure SkillsChanges where
  original : List String
  remodeled : List String
  reordered : Bool
  highlighted : List String
  added : List String
  removed : List String
deriving Repr, DecidableEq

/-- `diff.experienceChanges` of `remodelResume`. -/
structure ExperienceChanges where
  reordered : Bool
  bulletChanges : List String
deriving Repr, DecidableEq

/-- `diff.sectionsOrder` of `remodelResume`. -/
structure SectionsOrder where
  original : List String
  remodeled : List String
deriving Repr, DecidableEq

/-- The `diff` record of `remodelResume`. -/
structure RemodelDiff where
  skillsChanges : SkillsChanges
  experienceChanges : ExperienceChanges
  sectionsOrder : SectionsOrder
  summary : String
deriving Repr, DecidableEq

/-- An experience role in the `original` view (missing fields default to
empty). -/
structure OriginalRole where
  title : String
  company : String
  startDate : String
  endDate : String
  bullets : List String
deriving Repr, DecidableEq

/-- An experience role in the `remodeled` view: bullets capped at 10 and the
original index recorded. -/
structure RemodeledRole where
  title : String
  company : String
  startDate : String
  endDate : String
  bullets : List String
  originalIndex : Nat
deriving Repr, DecidableEq

/-- The data payload of `remodelResume`'s result, with the JS nesting
`{ original: {summary, skills, experience}, remodeled: {...}, diff,
originalExcerpt }` flattened into named fields. -/
structure RemodelData where
  originalSummary : String
  originalSkills : List String
  originalExperience : List OriginalRole
  remodeledSummary : String
  remodeledSkills : List String
  remodeledExperience : List RemodeledRole
  diff : RemodelDiff
  originalExcerpt : String
deriving Repr, DecidableEq

/-- `remodelResume`: dedupe the stored skills, stably sort them by first job
mention (999 for unmatched) when the job mentions known skills, record the
diff, and rebuild the two views from existing data only. -/
def remodelResume (resume : Resume) (jobDescription : String) : RemodelData :=
  let summary := jsTrim (resume.summary.getD "")
  let originalSkills := uniq (resume.parsedSkills.getD [])
  let exp := resume.parsedExperience.getD []
  let jobSkills := extractJobSkills jobDescription
  let orderedSkills := if 0 < jobSkills.length
    then jsStableSort
      (fun a b => decide (skillSortKey jobSkills a ≤ skillSortKey jobSkills b)) originalSkills
    else originalSkills
  let skillsReordered := orderedSkills ≠ originalSkills
  let skillsHighlighted := if skillsReordered
    then jobSkills.filter (fun s => (orderedSkills.map normalize).contains (normalize s))
    else []
  let remodeledExperience := exp.mapIdx (fun idx role =>
    { title := role.title.getD "", company := role.company.getD "",
      startDate := role.startDate.getD "", endDate := role.endDate.getD "",
      bullets := (role.bullets.getD []).take 10, originalIndex := idx : RemodeledRole })
  let sectionsReordered := if 0 < jobSkills.length
    then ["summary", "skills (job-prioritized)", "experience"]
    else ["summary", "skills", "experience"]
  let changes : RemodelChanges :=
    { skillsReordered := skillsReordered, skillsHighlighted := skillsHighlighted,
      experienceReordered := false, sectionsReordered := sectionsReordered,
      bulletChanges := [] }
  let diff : RemodelDiff :=
    { skillsChanges :=
        { original := originalSkills, remodeled := orderedSkills,
          reordered := skillsReordered, highlighted := skillsHighlighted,
          added := [], removed := [] },
      experienceChanges := { reordered := false, bulletChanges := [] },
      sectionsOrder := { original := ["summary", "skills", "experience"],
                         remodeled := sectionsReordered },
      summary := generateChangeSummary changes }
  { originalSummary := summary, originalSkills := originalSkills,
    originalExperience := exp.map (fun role =>
      { title := role.title.getD "", company := role.company.getD "",
        startDate := role.startDate.getD "", endDate := role.endDate.getD "",
        bullets := role.bullets.getD [] : OriginalRole }),
    remodeledSummary := summary, remodeledSkills := orderedSkills,
    remodeledExperience := remodeledExperience, diff := diff,
    originalExcerpt := String.mk ((resume.originalText.getD "").data.take 2000) }

/-! ### Specification-side definitions

These definitions follow the wording of the specification / claims (amended
where a counterexample forces it) and are compared with the source-side
definitions above by the refinement theorems below. -/

/-- The substring before the first comma (the whole string if there is none):
the spec's "same city" segment. -/
def beforeComma (s : String) : String :=
  String.mk (s.data.takeWhile (fun c => c ≠ ','))

/-- The segment between the first comma and the next one (or the end): the
spec's "same region/country" segment, meaningful only when a comma exists. -/
def afterCommaSegment (s : String) : String :=
  String.mk (((s.data.dropWhile (fun c => c ≠ ',')).tail).takeWhile (fun c => c ≠ ','))

/-- Whether the string contains a comma at all. -/
def hasComma (s : String) : Bool := s.data.contains ','

/-- The location case analysis as the claim words it, amended in the 70-branch:
the region segments match — which in the source's JS also covers the case where
neither string contains a comma, since `split(",")[1]` is `undefined` for both
and `undefined === undefined` holds. -/
def locationMatchSpec (jobLocation userLocation : Option String) : Int :=
  if jobLocation.getD "" = "" ∨ userLocation.getD "" = "" then 50
  else
    let j := normalize (jobLocation.getD "")
    let u := normalize (userLocation.getD "")
    if jsIncludes j "remote" ∨ jsIncludes u "remote" then 80
    else if j = u ∨ beforeComma j = beforeComma u then 100
    else if (hasComma j ∧ hasComma u ∧ afterCommaSegment j = afterCommaSegment u)
            ∨ (¬ hasComma j ∧ ¬ hasComma u) then 70
    else 40

/-- The experience-fit tiers exactly as the claim words them: neutral 75 when
no requirement is stated (or it is zero); 100 at or above the requirement; 85
when exactly one year short; 70 when exactly two years short; otherwise
`max 30 (100 - 15 * gap)`. -/
def expFitSpec (requiredYears : Nat) (years : Int) : Int :=
  if requiredYears = 0 then 75
  else if (requiredYears : Int) ≤ years then 100
  else if years = (requiredYears : Int) - 1 then 85
  else if years = (requiredYears : Int) - 2 then 70
  else max 30 (100 - ((requiredYears : Int) - years) * 15)

/-- The ranking score found at position `i` of a scored job list. -/
def scoreAt (scored : List RankedJob) (i : Nat) : Int :=
  (scored.getD i default).rankingScore

/-- Original positions `i`, `j` appear in this order in a stable descending
sort: either `i` scores strictly higher, or the scores tie and `i` came first. -/
def stableBefore (scored : List RankedJob) (i j : Nat) : Prop :=
  scoreAt scored j < scoreAt scored i ∨ (scoreAt scored i = scoreAt scored j ∧ i < j)

/-! Scenario inputs for the ranking-stability claim: with weights concentrated
on the skill factor, the three jobs below get composite scores 80, 80 and 60. -/

/-- Scenario job A (skill score 80). -/
def scenarioJobA : Job := { title := some "A", description := some "vue flask php aws docker" }

/-- Scenario job B (skill score 80, tied with A). -/
def scenarioJobB : Job := { title := some "B", description := some "vue flask php aws docker" }

/-- Scenario job C (skill score 60). -/
def scenarioJobC : Job :=
  { title := some "C", description := some "vue flask php docker kubernetes" }

/-- Scenario resume matching four of the five skills of A/B and three of C. -/
def scenarioResume : Resume := { parsedSkills := some ["vue", "flask", "php", "aws"] }

/-- Scenario weight overrides concentrating all weight on the skill factor. -/
def scenarioWeights : CustomWeights :=
  { skillMatch := some 1, experienceFit := some 0, location := some 0, recency := some 0 }

/-! ### Helper lemmas -/

theorem mem_uniqAux {a : String} : ∀ {l seen : List String},
    a ∈ uniqAux seen l ↔ a ∈ l ∧ a ∉ seen
  | [], seen => by simp [uniqAux]
  | x :: xs, seen => by
    by_cases hx : x ∈ seen
    · rw [uniqAux, if_pos hx, mem_uniqAux]
      constructor
      · rintro ⟨h1, h2⟩
        exact ⟨List.mem_cons_of_mem _ h1, h2⟩
      · rintro ⟨h1, h2⟩
        rcases List.mem_cons.mp h1 with rfl | h1
        · exact absurd hx h2
        · exact ⟨h1, h2⟩
    · rw [uniqAux, if_neg hx, List.mem_cons]
      constructor
      · rintro (rfl | h1)
        · exact ⟨List.mem_cons_self _ _, hx⟩
        · obtain ⟨h2, h3⟩ := mem_uniqAux.mp h1
          exact ⟨List.mem_cons_of_mem _ h2,
            fun hs => h3 (List.mem_cons.mpr (Or.inr hs))⟩
      · rintro ⟨h1, h2⟩
        by_cases hax : a = x
        · exact Or.inl hax
        · rcases List.mem_cons.mp h1 with rfl | h1
          · exact Or.inl rfl
          · refine Or.inr (mem_uniqAux.mpr ⟨h1, fun hs => ?_⟩)
            rcases List.mem_cons.mp hs with rfl | hs
            · exact hax rfl
            · exact h2 hs

theorem mem_uniq {a : String} {l : List String} : a ∈ uniq l ↔ a ∈ l := by
  rw [uniq, mem_uniqAux]
  simp

theorem nodup_uniqAux : ∀ (l seen : List String), (uniqAux seen l).Nodup
  | [], _ => by simp [uniqAux]
  | x :: xs, seen => by
    by_cases hx : x ∈ seen
    · rw [uniqAux, if_pos hx]
      exact nodup_uniqAux xs seen
    · rw [uniqAux, if_neg hx]
      refine List.nodup_cons.mpr ⟨fun hmem => ?_, nodup_uniqAux xs (x :: seen)⟩
      exact (mem_uniqAux.mp hmem).2 (List.mem_cons_self x seen)

theorem nodup_uniq (l : List String) : (uniq l).Nodup := nodup_uniqAux l []

theorem insertBy_perm {α : Type} (le : α → α → Bool) (a : α) (l : List α) :
    (insertBy le a l).Perm (a :: l) := by
  induction l with
  | nil => simp [insertBy]
  | cons b bs ih =>
    rw [insertBy]
    split
    · exact (ih.cons b).trans (List.Perm.swap a b bs)
    · exact List.Perm.refl _

theorem foldl_insertBy_perm {α : Type} (le : α → α → Bool) :
    ∀ (l acc : List α), (l.foldl (fun acc a => insertBy le a acc) acc).Perm (acc ++ l)
  | [], acc => by simp
  | a :: as, acc => by
    rw [List.foldl_cons]
    refine (foldl_insertBy_perm le as (insertBy le a acc)).trans ?_
    refine (List.Perm.append_right as (insertBy_perm le a acc)).trans ?_
    exact List.perm_middle.symm

theorem jsStableSort_perm {α : Type} (le : α → α → Bool) (l : List α) :
    (jsStableSort le l).Perm l := by
  unfold jsStableSort
  have h := foldl_insertBy_perm (decoratedLe le) l.enum []
  simpa [List.enum_map_snd] using h.map Prod.snd

theorem allWordsExist_sub {answer improved : String} (h : allWordsExist answer improved = true) :
    ∀ w ∈ splitWs (normalize improved), 2 ≤ w.length → w ∈ splitWs (normalize answer) := by
  intro w hw hlen
  unfold allWordsExist at h
  rw [List.all_eq_true] at h
  rcases Bool.or_eq_true_iff.mp (h w hw) with h1 | h1
  · exfalso
    have : w.length < 2 := by simpa using h1
    omega
  · simpa using h1

theorem safetyRevert_sub (answer improved : String) :
    ∀ w ∈ splitWs (normalize (safetyRevert answer improved)), 2 ≤ w.length →
      w ∈ splitWs (normalize answer) := by
  intro w hw hlen
  unfold safetyRevert at hw
  split at hw
  · next hA => exact allWordsExist_sub hA w hw hlen
  · exact hw

/-! ### C1: non-fabrication of `improveAnswer` -/

/-- C1.  Non-fabrication: for every original answer and job description, every
whitespace token of length ≥ 2 of the lower-cased returned `improved` text
already occurs among the whitespace tokens of the lower-cased trimmed original;
the safety check reverts `improved` to the original whenever the reordering or
formatting steps would break this, so it holds of every returned result. -/
theorem improveAnswer_nonFabrication (originalAnswer jobDescription : String) :
    ∀ w ∈ splitWs (normalize (improveAnswer originalAnswer jobDescription).improved),
      2 ≤ w.length → w ∈ splitWs (normalize (jsTrim originalAnswer)) := by
  intro w hw hlen
  unfold improveAnswer at hw
  by_cases h0 : originalAnswer = ""
  · rw [if_pos h0] at hw
    subst h0
    have hempty : splitWs (normalize "") = [""] := rfl
    simp only [hempty, List.mem_singleton] at hw
    subst hw
    simp at hlen
  · rw [if_neg h0] at hw
    dsimp only at hw
    exact safetyRevert_sub _ _ w hw hlen

/-- Witness for C1 at a concrete answer and job description. -/
theorem improveAnswer_nonFabrication_witness :
    "react" ∈ splitWs (normalize (jsTrim "I cook well. I use react daily.")) := by
  refine improveAnswer_nonFabrication "I cook well. I use react daily." "react" "react" ?_ ?_
  · rw [show splitWs (normalize
      (improveAnswer "I cook well. I use react daily." "react").improved) =
      ["i", "use", "react", "daily.", "i", "cook", "well."] from rfl]
    simp
  · rw [show ("react").length = 5 from rfl]
    omega

/-! ### C2: remodel permutation invariant -/

/-- C2 counterexample.  With a duplicated stored skill the remodeled list is
not a permutation of the raw input list: the source deduplicates
(`uniq(resume.parsedSkills)`) before reordering, so one occurrence of
`"react"` is dropped. -/
theorem remodelResume_dup_counterexample :
    (remodelResume { parsedSkills := some ["react", "react"] } "").remodeledSkills = ["react"] ∧
    ¬ (remodelResume
        { parsedSkills := some ["react", "react"] } "").remodeledSkills.Perm
        ["react", "react"] := by
  constructor
  · rfl
  · intro h
    rw [show (remodelResume
      { parsedSkills := some ["react", "react"] } "").remodeledSkills = ["react"] from rfl] at h
    have := h.length_eq
    simp at this

/-- C2 (amended).  The remodeled skill list is always a permutation of the
deduplicated input skill list (the source never adds a skill and never removes
one beyond the initial deduplication), and when the job description mentions no
known skill the deduplicated input order is returned unchanged. -/
theorem remodelResume_perm (resume : Resume) (jobDescription : String) :
    ((remodelResume resume jobDescription).remodeledSkills).Perm
      (uniq (resume.parsedSkills.getD [])) ∧
    (extractJobSkills jobDescription = [] →
      (remodelResume resume jobDescription).remodeledSkills =
        uniq (resume.parsedSkills.getD [])) := by
  constructor
  · show (remodelResume resume jobDescription).remodeledSkills.Perm _
    unfold remodelResume
    dsimp only
    split
    · exact jsStableSort_perm _ _
    · exact List.Perm.refl _
  · intro h
    unfold remodelResume
    dsimp only
    rw [if_neg (by simp [h])]

/-- Witness for C2 at a concrete resume and an empty job description. -/
theorem remodelResume_perm_witness :
    (remodelResume { parsedSkills := some ["b", "a"] } "").remodeledSkills = ["b", "a"] := by
  have h := (remodelResume_perm { parsedSkills := some ["b", "a"] } "").2 rfl
  rw [h]
  rfl

/-! ### C3: weight normalization -/

/-- C3 counterexample.  With the all-zero override map the weight sum is 0 and
every weight is divided by zero: in JS each normalized weight is `NaN`, in this
exact model 0 — either way the four effective weights do not sum to 1. -/
theorem effectiveWeights_zero_counterexample :
    weightSum (effectiveWeights
      { skillMatch := some 0, experienceFit := some 0,
        location := some 0, recency := some 0 }) = 0 ∧ (0 : ℚ) ≠ 1 := by
  constructor
  · norm_num [effectiveWeights, overriddenWeights, weightSum]
  · norm_num

/-- C4, amended.  Whenever the overridden weights have nonzero sum, the four
effective weights used by `rankJobs` sum to exactly 1, regardless of the
magnitudes supplied. -/
theorem effectiveWeights_sum_one (customWeights : CustomWeights)
    (h : weightSum (overriddenWeights customWeights) ≠ 0) :
    weightSum (effectiveWeights customWeights) = 1 := by
  have h' := h
  simp only [weightSum, effectiveWeights] at h' ⊢
  rw [div_add_div_same, div_add_div_same, div_add_div_same, div_eq_one_iff_eq h']

/-- Witness for C3 at the empty override map (default weights, sum 1). -/
theorem effectiveWeights_sum_one_witness : weightSum (effectiveWeights {}) = 1 :=
  effectiveWeights_sum_one {} (by norm_num [overriddenWeights, weightSum])

/-! ### C4: score bounds -/

theorem round_bounds {x : ℚ} (h0 : 0 ≤ x) (h100 : x ≤ 100) :
    0 ≤ round x ∧ round x ≤ 100 := by
  rw [round_eq]
  constructor
  · rw [Int.le_floor]
    push_cast
    linarith
  · have : ⌊x + 1 / 2⌋ < 101 := by
      rw [Int.floor_lt]
      push_cast
      linarith
    omega

theorem computeScore_bounds (jobSkills resumeSkills : List String) :
    0 ≤ computeScore jobSkills resumeSkills ∧ computeScore jobSkills resumeSkills ≤ 100 := by
  unfold computeScore
  split
  · norm_num
  · constructor
    · exact le_max_left _ _
    · exact max_le (by norm_num) (min_le_left _ _)

theorem calculateSkillMatch_bounds (jobDescription : Option String)
    (resumeSkills : Option (List String)) :
    0 ≤ calculateSkillMatch jobDescription resumeSkills ∧
      calculateSkillMatch jobDescription resumeSkills ≤ 100 := by
  unfold calculateSkillMatch
  split
  · norm_num
  · dsimp only
    split
    · norm_num
    · next hne =>
      set jobSkills := extractJobSkills (jobDescription.getD "") with hjs
      set matched := jobSkills.filter (fun skill =>
        (resumeSkills.getD []).any (fun userSkill =>
          jsIncludes (normalize userSkill) (normalize skill) ||
          jsIncludes (normalize skill) (normalize userSkill))) with hm
      have hlen : matched.length ≤ jobSkills.length := List.length_filter_le _ _
      have hpos : 0 < jobSkills.length := Nat.pos_of_ne_zero hne
      apply round_bounds
      · positivity
      · have hlen' : (matched.length : ℚ) ≤ (jobSkills.length : ℚ) := by exact_mod_cast hlen
        rw [div_mul_eq_mul_div, div_le_iff₀ (by exact_mod_cast hpos)]
        linarith

theorem calculateExperienceFit_bounds (jobDescription : String) (yearsOfExperience : Int) :
    0 ≤ calculateExperienceFit jobDescription yearsOfExperience ∧
      calculateExperienceFit jobDescription yearsOfExperience ≤ 100 := by
  unfold calculateExperienceFit
  dsimp only
  split
  · norm_num
  · split
    · norm_num
    · split
      · norm_num
      · split
        · norm_num
        · next h1 h2 h3 h4 => omega

theorem calculateLocationMatch_bounds (jobLocation userLocation : Option String) :
    0 ≤ calculateLocationMatch jobLocation userLocation ∧
      calculateLocationMatch jobLocation userLocation ≤ 100 := by
  unfold calculateLocationMatch
  split
  · norm_num
  · dsimp only
    split
    · norm_num
    · split
      · norm_num
      · split
        · norm_num
        · split
          · norm_num
          · norm_num

theorem calculateRecency_bounds (jobPostedDate : Option Int) (now : Int) :
    0 ≤ calculateRecency jobPostedDate now ∧ calculateRecency jobPostedDate now ≤ 100 := by
  unfold calculateRecency
  match jobPostedDate with
  | none => norm_num
  | some posted =>
    dsimp only
    split
    · norm_num
    · split
      · norm_num
      · split
        · norm_num
        · split
          · norm_num
          · next h1 h2 h3 h4 =>
            set d : Int := Int.fdiv (now - posted) msPerDay with hd
            have h91 : (91 : ℚ) ≤ (d : ℚ) := by
              have : (91 : ℤ) ≤ d := by omega
              exact_mod_cast this
            constructor
            · have : (0 : ℚ) ≤ 20 := by norm_num
              exact this.trans (le_max_left _ _)
            · apply max_le
              · norm_num
              · have : (0 : ℚ) ≤ (d : ℚ) / 3 := by linarith
                linarith

/-- C4 counterexample.  One hundred days after posting, the recency score is
`100 - 100/3 = 200/3`, which is not an integer, so the sub-scores are not all
integers as claimed (bounds still hold, see the amended theorem). -/
theorem calculateRecency_not_integer_counterexample :
    calculateRecency (some 0) (100 * msPerDay) = 200 / 3 ∧
    ¬ ∃ n : ℤ, calculateRecency (some 0) (100 * msPerDay) = (n : ℚ) := by
  have h : calculateRecency (some 0) (100 * msPerDay) = 200 / 3 := by
    unfold calculateRecency
    have hd : Int.fdiv (100 * msPerDay - 0) msPerDay = 100 := by decide
    dsimp only
    rw [hd]
    rw [if_neg (by norm_num), if_neg (by norm_num), if_neg (by norm_num), if_neg (by norm_num),
      max_eq_right (by norm_num)]
    norm_num
  refine ⟨h, ?_⟩
  rintro ⟨n, hn⟩
  rw [h] at hn
  have h3 : (200 : ℚ) = (n : ℚ) * 3 := by
    rw [div_eq_iff (by norm_num)] at hn
    linarith
  have h4 : (200 : ℤ) = n * 3 := by exact_mod_cast h3
  omega

/-- C4 (amended).  `computeScore` and the four sub-scorers always return values
in [0, 100]; `computeScore`, skill match, experience fit and location fit are
integers by construction, while recency can be fractional beyond 90 days (see
the counterexample), so "integer" holds for all but the recency score. -/
theorem score_bounds :
    (∀ jobSkills resumeSkills : List String,
      0 ≤ computeScore jobSkills resumeSkills ∧ computeScore jobSkills resumeSkills ≤ 100) ∧
    (∀ (jobDescription : Option String) (resumeSkills : Option (List String)),
      0 ≤ calculateSkillMatch jobDescription resumeSkills ∧
        calculateSkillMatch jobDescription resumeSkills ≤ 100) ∧
    (∀ (jobDescription : String) (yearsOfExperience : Int),
      0 ≤ calculateExperienceFit jobDescription yearsOfExperience ∧
        calculateExperienceFit jobDescription yearsOfExperience ≤ 100) ∧
    (∀ jobLocation userLocation : Option String,
      0 ≤ calculateLocationMatch jobLocation userLocation ∧
        calculateLocationMatch jobLocation userLocation ≤ 100) ∧
    (∀ (jobPostedDate : Option Int) (now : Int),
      0 ≤ calculateRecency jobPostedDate now ∧ calculateRecency jobPostedDate now ≤ 100) :=
  ⟨computeScore_bounds, calculateSkillMatch_bounds, calculateExperienceFit_bounds,
   calculateLocationMatch_bounds, calculateRecency_bounds⟩

/-! ### C5: location fit case analysis -/

theorem splitOnCharAux_head (sep : Char) :
    ∀ (cs acc : List Char),
      (splitOnCharAux sep cs acc).head? =
        some (String.mk (acc.reverse ++ cs.takeWhile (fun c => c ≠ sep)))
  | [], acc => by simp [splitOnCharAux]
  | c :: rest, acc => by
    rw [splitOnCharAux]
    by_cases hc : c = sep
    · rw [if_pos hc]
      simp [List.takeWhile_cons, hc]
    · rw [if_neg hc]
      rw [splitOnCharAux_head sep rest (c :: acc)]
      simp [List.takeWhile_cons, hc]

theorem splitOnCharAux_one (sep : Char) :
    ∀ (cs acc : List Char),
      (splitOnCharAux sep cs acc)[1]? =
        if sep ∈ cs then
          some (String.mk
            (((cs.dropWhile (fun c => c ≠ sep)).tail).takeWhile (fun c => c ≠ sep)))
        else none
  | [], acc => by simp [splitOnCharAux]
  | c :: rest, acc => by
    rw [splitOnCharAux]
    by_cases hc : c = sep
    · rw [if_pos hc, if_pos (List.mem_cons.mpr (Or.inl hc.symm))]
      rw [List.getElem?_cons_succ, ← List.head?_eq_getElem?, splitOnCharAux_head]
      rw [List.dropWhile_cons, if_neg (by simp [hc])]
      simp
    · rw [if_neg hc, splitOnCharAux_one sep rest (c :: acc)]
      have hmem : (sep ∈ c :: rest) = (sep ∈ rest) := by
        rw [eq_iff_iff, List.mem_cons]
        constructor
        · rintro (h | h)
          · exact absurd h.symm hc
          · exact h
        · exact fun h => Or.inr h
      have hdrop : (c :: rest).dropWhile (fun x => decide (x ≠ sep)) =
          rest.dropWhile (fun x => decide (x ≠ sep)) := by
        rw [List.dropWhile_cons, if_pos (by simp [hc])]
      simp only [hmem, hdrop]

theorem splitOnChar_zero (sep : Char) (s : String) :
    (splitOnChar sep s)[0]? =
      some (String.mk (s.data.takeWhile (fun c => c ≠ sep))) := by
  rw [splitOnChar, ← List.head?_eq_getElem?, splitOnCharAux_head]
  simp

theorem splitOnChar_one (sep : Char) (s : String) :
    (splitOnChar sep s)[1]? =
      if sep ∈ s.data then
        some (String.mk
          (((s.data.dropWhile (fun c => c ≠ sep)).tail).takeWhile (fun c => c ≠ sep)))
      else none := by
  rw [splitOnChar, splitOnCharAux_one]

/-- C5 counterexample.  Two comma-less, non-remote, distinct locations score 70,
not 40: `split(",")[1]` is `undefined` on both sides and `undefined ===
undefined` holds in JS.  The conjunct with two multi-comma strings also shows
the 70-branch compares the segment between the first and second comma, not the
whole remainder after the first comma (`"b,c" ≠ "b,d"`, yet the score is 70). -/
theorem calculateLocationMatch_counterexample :
    calculateLocationMatch (some "Paris") (some "London") = 70 ∧ (70 : Int) ≠ 40 ∧
    calculateLocationMatch (some "a,b,c") (some "z,b,d") = 70 := by
  refine ⟨rfl, by norm_num, rfl⟩

/-- C5 (amended).  `calculateLocationMatch` implements the claimed case chain
with the 70-branch amended: 50 when either location is missing or empty; else
80 when either contains "remote"; else 100 when the strings are equal or their
first comma-separated segments are equal; else 70 when the segments between the
first and second commas are equal **or neither string contains a comma**; else
40.  San Francisco CA/NY scores 100, while Paris vs London scores 70 (not 40). -/
theorem calculateLocationMatch_spec (jobLocation userLocation : Option String) :
    calculateLocationMatch jobLocation userLocation =
      locationMatchSpec jobLocation userLocation ∧
    calculateLocationMatch (some "San Francisco, CA") (some "San Francisco, NY") = 100 ∧
    calculateLocationMatch (some "Paris") (some "London") = 70 := by
  refine ⟨?_, rfl, rfl⟩
  unfold calculateLocationMatch locationMatchSpec
  simp only [strFalsy, decide_eq_true_eq]
  by_cases hf : jobLocation.getD "" = "" ∨ userLocation.getD "" = ""
  · rw [if_pos hf, if_pos hf]
  · rw [if_neg hf, if_neg hf]
    set j := normalize (jobLocation.getD "") with hj
    set u := normalize (userLocation.getD "") with hu
    by_cases hrem : jsIncludes j "remote" = true ∨ jsIncludes u "remote" = true
    · rw [if_pos hrem, if_pos hrem]
    · rw [if_neg hrem, if_neg hrem]
      by_cases heq : j = u
      · rw [if_pos heq, if_pos (Or.inl heq)]
      · rw [if_neg heq]
        have hseg0 : ((splitOnChar ',' j)[0]? = (splitOnChar ',' u)[0]?) ↔
            beforeComma j = beforeComma u := by
          rw [splitOnChar_zero, splitOnChar_zero, Option.some_inj]
          unfold beforeComma
          constructor
          · intro h
            rw [h]
          · intro h
            rw [h]
        by_cases hb : beforeComma j = beforeComma u
        · rw [if_pos (hseg0.mpr hb), if_pos (Or.inr hb)]
        · have hnot100 : ¬ (j = u ∨ beforeComma j = beforeComma u) := by
            rintro (h | h)
            · exact heq h
            · exact hb h
          rw [if_neg (fun h => hb (hseg0.mp h)), if_neg hnot100]
          have hcj : (hasComma j = true) ↔ ',' ∈ j.data := by
            unfold hasComma
            exact List.elem_iff
          have hcu : (hasComma u = true) ↔ ',' ∈ u.data := by
            unfold hasComma
            exact List.elem_iff
          rw [splitOnChar_one, splitOnChar_one]
          by_cases h1 : ',' ∈ j.data
          · by_cases h2 : ',' ∈ u.data
            · rw [if_pos h1, if_pos h2]
              by_cases h3 : afterCommaSegment j = afterCommaSegment u
              · have h3' := h3
                unfold afterCommaSegment at h3'
                rw [if_pos (Option.some_inj.mpr h3'),
                  if_pos (Or.inl ⟨hcj.mpr h1, hcu.mpr h2, h3⟩)]
              · have h3' : ¬ (String.mk (((j.data.dropWhile (fun c => c ≠ ','))).tail.takeWhile
                    (fun c => c ≠ ',')) = String.mk (((u.data.dropWhile
                    (fun c => c ≠ ','))).tail.takeWhile (fun c => c ≠ ','))) := h3
                have hno70 : ¬ ((hasComma j = true ∧ hasComma u = true ∧
                    afterCommaSegment j = afterCommaSegment u) ∨
                    (¬ hasComma j = true ∧ ¬ hasComma u = true)) := by
                  rintro (⟨_, _, h⟩ | ⟨h, _⟩)
                  · exact h3 h
                  · exact h (hcj.mpr h1)
                rw [if_neg (fun h => h3' (Option.some_inj.mp h)), if_neg hno70]
            · have hno70 : ¬ ((hasComma j = true ∧ hasComma u = true ∧
                  afterCommaSegment j = afterCommaSegment u) ∨
                  (¬ hasComma j = true ∧ ¬ hasComma u = true)) := by
                rintro (⟨_, h, _⟩ | ⟨h, _⟩)
                · exact h2 (hcu.mp h)
                · exact h (hcj.mpr h1)
              rw [if_pos h1, if_neg h2, if_neg (by simp), if_neg hno70]
          · by_cases h2 : ',' ∈ u.data
            · have hno70 : ¬ ((hasComma j = true ∧ hasComma u = true ∧
                  afterCommaSegment j = afterCommaSegment u) ∨
                  (¬ hasComma j = true ∧ ¬ hasComma u = true)) := by
                rintro (⟨h, _, _⟩ | ⟨_, h⟩)
                · exact h1 (hcj.mp h)
                · exact h (hcu.mpr h2)
              rw [if_neg h1, if_pos h2, if_neg (by simp), if_neg hno70]
            · rw [if_neg h1, if_neg h2, if_pos rfl,
                if_pos (Or.inr ⟨fun h => h1 (hcj.mp h), fun h => h2 (hcu.mp h)⟩)]

/-! ### C6: experience fit tiers -/

/-- C6.  For every job description and non-negative candidate years,
`calculateExperienceFit` realizes exactly the claimed tiers over the
regex-extracted requirement (0 when the pattern is absent): 75 when the
requirement is absent or zero; 100 at or above it; 85 one year short; 70 two
years short; otherwise `max 30 (100 - 15 * gap)`. -/
theorem calculateExperienceFit_spec (jobDescription : String) (yearsOfExperience : Int)
    (hy : 0 ≤ yearsOfExperience) :
    calculateExperienceFit jobDescription yearsOfExperience =
      expFitSpec (requiredYearsOf jobDescription) yearsOfExperience := by
  unfold calculateExperienceFit expFitSpec
  dsimp only
  split_ifs <;> omega

/-- Witness for C6: "5+ years of experience required" against a 3-year
candidate scores 70 (the claim's scenario). -/
theorem calculateExperienceFit_spec_witness :
    calculateExperienceFit "5+ years of experience required" 3 = 70 := by
  have h := calculateExperienceFit_spec "5+ years of experience required" 3 (by norm_num)
  rw [h]
  rfl

/-! ### C7: match score formula -/

theorem uniq_toFinset (l : List String) : (uniq l).toFinset = l.toFinset := by
  ext a
  simp [List.mem_toFinset, mem_uniq]

theorem uniq_length (l : List String) : (uniq l).length = l.toFinset.card := by
  rw [← uniq_toFinset, List.toFinset_card_of_nodup (nodup_uniq l)]

theorem uniq_filter_contains_length (J R : List String) :
    ((uniq J).filter (fun s => (uniq R).contains s)).length =
      (J.toFinset ∩ R.toFinset).card := by
  have hnd : ((uniq J).filter (fun s => (uniq R).contains s)).Nodup :=
    (nodup_uniq J).filter _
  rw [← List.toFinset_card_of_nodup hnd, List.toFinset_filter]
  congr 1
  rw [uniq_toFinset]
  rw [← Finset.filter_mem_eq_inter]
  apply Finset.filter_congr
  intro a _
  simp [List.elem_iff, mem_uniq, List.mem_toFinset]

/-- C7.  `computeScore` returns 0 when either list is empty and otherwise the
rounded percentage `round (100 * |J ∩ R| / |J|)` where `J`, `R` are the sets of
distinct lower-cased job and resume skills — the denominator counts distinct
job skills.  The defensive clamp never fires.  The claimed scenario
`{react, node}` vs `{react, python}` scores exactly 50. -/
theorem computeScore_spec :
    (∀ jobSkills resumeSkills : List String,
      computeScore jobSkills resumeSkills =
        if jobSkills = [] ∨ resumeSkills = [] then 0
        else round ((100 : ℚ) *
          ((jobSkills.map normalize).toFinset ∩ (resumeSkills.map normalize).toFinset).card /
          (jobSkills.map normalize).toFinset.card)) ∧
    computeScore ["react", "node"] ["react", "python"] = 50 := by
  have hmain : ∀ jobSkills resumeSkills : List String,
      computeScore jobSkills resumeSkills =
        if jobSkills = [] ∨ resumeSkills = [] then 0
        else round ((100 : ℚ) *
          ((jobSkills.map normalize).toFinset ∩ (resumeSkills.map normalize).toFinset).card /
          (jobSkills.map normalize).toFinset.card) := by
    intro jobSkills resumeSkills
    unfold computeScore
    by_cases h : jobSkills = [] ∨ resumeSkills = []
    · rw [if_pos (by
        rcases h with h | h <;> simp [h]), if_pos h]
    · push_neg at h
      rw [if_neg (by
        push_neg
        constructor <;> simp [List.length_eq_zero, h.1, h.2]), if_neg (by
        rintro (h1 | h1)
        · exact h.1 h1
        · exact h.2 h1)]
      dsimp only
      rw [uniq_filter_contains_length, uniq_length]
      have hJcard : 0 < (jobSkills.map normalize).toFinset.card := by
        rw [Finset.card_pos]
        obtain ⟨x, xs, rfl⟩ := List.exists_cons_of_ne_nil h.1
        exact ⟨normalize x, by simp⟩
      have hle : ((jobSkills.map normalize).toFinset ∩
          (resumeSkills.map normalize).toFinset).card ≤
          (jobSkills.map normalize).toFinset.card :=
        Finset.card_le_card (Finset.inter_subset_left)
      set m := ((jobSkills.map normalize).toFinset ∩
        (resumeSkills.map normalize).toFinset).card with hm
      set n := (jobSkills.map normalize).toFinset.card with hn
      have hb := round_bounds (x := (m : ℚ) / (n : ℚ) * 100)
        (by positivity)
        (by
          have hle' : (m : ℚ) ≤ (n : ℚ) := by exact_mod_cast hle
          rw [div_mul_eq_mul_div, div_le_iff₀ (by exact_mod_cast hJcard)]
          linarith)
      rw [max_eq_right (le_min (by norm_num) hb.1), min_eq_right hb.2]
      congr 1
      ring
  refine ⟨hmain, ?_⟩
  rw [hmain]
  rw [if_neg (by simp)]
  rw [show ((["react", "node"].map normalize).toFinset ∩
      (["react", "python"].map normalize).toFinset).card = 1 by decide]
  rw [show (["react", "node"].map normalize).toFinset.card = 2 by decide]
  norm_num [round_eq]

/-! ### C9: totality and neutral defaults -/

/-- C9 counterexample.  `calculateExperienceFit(undefined, 3)` does not return
a neutral score: the source reads `jobDescription.match(...)` without a guard,
so the call raises a `TypeError` (modelled as `none`). -/
theorem calculateExperienceFitJS_undefined_counterexample :
    calculateExperienceFitJS none 3 = none := rfl

/-- C9 (amended).  Empty or missing inputs degrade to the claimed neutral
defaults — 0 for `computeScore`/`calculateSkillMatch` on empty or missing
skills or description, 50 for missing locations or posted date, 75 when no
years requirement is stated — except that `calculateExperienceFit` is not
total on a missing (undefined) job description: that call raises a `TypeError`
(modelled as `none`); `rankJobs` call sites guard it with `job.description ||
""`. -/
theorem neutral_defaults :
    (∀ resumeSkills, computeScore [] resumeSkills = 0) ∧
    (∀ jobSkills, computeScore jobSkills [] = 0) ∧
    (∀ resumeSkills, calculateSkillMatch none resumeSkills = 0) ∧
    (∀ jobDescription, calculateSkillMatch jobDescription (some []) = 0) ∧
    (∀ userLocation, calculateLocationMatch none userLocation = 50) ∧
    (∀ jobLocation, calculateLocationMatch jobLocation none = 50) ∧
    (∀ now : Int, calculateRecency none now = 50) ∧
    (∀ (jobDescription : String) (yearsOfExperience : Int),
      requiredYearsOf jobDescription = 0 →
        calculateExperienceFit jobDescription yearsOfExperience = 75) ∧
    (∀ yearsOfExperience : Int, calculateExperienceFitJS none yearsOfExperience = none) := by
  refine ⟨?_, ?_, ?_, ?_, ?_, ?_, ?_, ?_, ?_⟩
  · intro rs
    simp [computeScore]
  · intro js
    simp [computeScore]
  · intro rs
    simp [calculateSkillMatch, strFalsy]
  · intro jd
    simp [calculateSkillMatch]
  · intro ul
    simp [calculateLocationMatch, strFalsy]
  · intro jl
    simp [calculateLocationMatch, strFalsy]
  · intro _
    rfl
  · intro jd y h
    unfold calculateExperienceFit
    dsimp only
    rw [h]
    norm_num
  · intro _
    rfl

/-- Witness for C9 at a concrete empty description and 42 years. -/
theorem neutral_defaults_witness : calculateExperienceFit "" 42 = 75 :=
  neutral_defaults.2.2.2.2.2.2.2.1 "" 42 rfl

/-! ### C8: ranking order and stability -/

theorem insertBy_pairwise {α : Type} {le : α → α → Bool}
    (htot : ∀ a b, le a b = true ∨ le b a = true)
    (htrans : ∀ a b c, le a b = true → le b c = true → le a c = true)
    (a : α) {l : List α} (hl : l.Pairwise (fun x y => le x y = true)) :
    (insertBy le a l).Pairwise (fun x y => le x y = true) := by
  induction l with
  | nil => simp [insertBy]
  | cons b bs ih =>
    rw [insertBy]
    rw [List.pairwise_cons] at hl
    obtain ⟨hb, hbs⟩ := hl
    split
    · next hba =>
      rw [List.pairwise_cons]
      refine ⟨fun x hx => ?_, ih hbs⟩
      have hx' := (insertBy_perm le a bs).mem_iff.mp hx
      rcases List.mem_cons.mp hx' with rfl | hx'
      · exact hba
      · exact hb x hx'
    · next hba =>
      have hab : le a b = true := by
        rcases htot a b with h | h
        · exact h
        · exact absurd h hba
      rw [List.pairwise_cons]
      refine ⟨fun x hx => ?_, List.pairwise_cons.mpr ⟨hb, hbs⟩⟩
      rcases List.mem_cons.mp hx with rfl | hx
      · exact hab
      · exact htrans a b x hab (hb x hx)

theorem foldl_insertBy_pairwise {α : Type} {le : α → α → Bool}
    (htot : ∀ a b, le a b = true ∨ le b a = true)
    (htrans : ∀ a b c, le a b = true → le b c = true → le a c = true) :
    ∀ (l acc : List α), acc.Pairwise (fun x y => le x y = true) →
      (l.foldl (fun acc a => insertBy le a acc) acc).Pairwise (fun x y => le x y = true)
  | [], _, h => h
  | a :: as, acc, h =>
    foldl_insertBy_pairwise htot htrans as (insertBy le a acc)
      (insertBy_pairwise htot htrans a h)

theorem decoratedLe_total {α : Type} {le : α → α → Bool}
    (htot : ∀ a b, le a b = true ∨ le b a = true) (p q : Nat × α) :
    decoratedLe le p q = true ∨ decoratedLe le q p = true := by
  unfold decoratedLe
  by_cases h1 : le p.2 q.2 = true
  · by_cases h2 : le q.2 p.2 = true
    · rcases Nat.le_total p.1 q.1 with hi | hi
      · left
        simp [h1, h2, hi]
      · right
        simp [h1, h2, hi]
    · left
      simp [h1, h2]
  · rcases htot p.2 q.2 with h | h
    · exact absurd h h1
    · right
      simp [h, h1]

theorem decoratedLe_trans {α : Type} {le : α → α → Bool}
    (htrans : ∀ a b c, le a b = true → le b c = true → le a c = true) (p q r : Nat × α)
    (hpq : decoratedLe le p q = true) (hqr : decoratedLe le q r = true) :
    decoratedLe le p r = true := by
  unfold decoratedLe at *
  rw [Bool.and_eq_true, Bool.or_eq_true] at hpq hqr ⊢
  obtain ⟨hab, hpq2⟩ := hpq
  obtain ⟨hbc, hqr2⟩ := hqr
  refine ⟨htrans _ _ _ hab hbc, ?_⟩
  by_cases hca : le r.2 p.2 = true
  · right
    have hcb : le r.2 q.2 = true := htrans _ _ _ hca hab
    have hba : le q.2 p.2 = true := htrans _ _ _ hbc hca
    have hij : p.1 ≤ q.1 := by
      rcases hpq2 with h | h
      · rw [Bool.not_eq_true'] at h
        exact absurd hba (by simp [h])
      · exact of_decide_eq_true h
    have hjk : q.1 ≤ r.1 := by
      rcases hqr2 with h | h
      · rw [Bool.not_eq_true'] at h
        exact absurd hcb (by simp [h])
      · exact of_decide_eq_true h
    simp [Nat.le_trans hij hjk]
  · left
    simp [hca]

theorem descLe_total (a b : RankedJob) : descLe a b = true ∨ descLe b a = true := by
  unfold descLe
  rcases Int.le_total b.rankingScore a.rankingScore with h | h
  · left
    simpa using h
  · right
    simpa using h

theorem descLe_trans (a b c : RankedJob) (h1 : descLe a b = true) (h2 : descLe b c = true) :
    descLe a c = true := by
  unfold descLe at *
  simp only [decide_eq_true_eq] at *
  omega

/-- The decorated insertion sort of `sortByScoreDesc`, described by an index
permutation: there is a list of original positions, a permutation of
`range n`, such that the output reads the scored list along it and consecutive
positions are in strict stable-descending order. -/
theorem sortByScoreDesc_exists (scored : List RankedJob) :
    ∃ ixs : List Nat,
      ixs.Perm (List.range scored.length) ∧
      sortByScoreDesc scored = ixs.map (fun k => scored.getD k default) ∧
      ixs.Pairwise (stableBefore scored) := by
  classical
  set dle := decoratedLe (α := RankedJob) descLe with hdle
  set D := (scored.enum).foldl (fun acc p => insertBy dle p acc) [] with hD
  have hperm : D.Perm scored.enum := by
    have h := foldl_insertBy_perm dle scored.enum []
    simpa using h
  have hpair : D.Pairwise (fun p q => dle p q = true) :=
    foldl_insertBy_pairwise
      (fun p q => decoratedLe_total descLe_total p q)
      (fun p q r => decoratedLe_trans descLe_trans p q r)
      scored.enum [] (by simp)
  have hmem : ∀ p ∈ D, scored[p.1]? = some p.2 := by
    intro p hp
    exact List.mem_enum_iff_getElem?.mp (hperm.subset hp)
  refine ⟨D.map Prod.fst, ?_, ?_, ?_⟩
  · have h := hperm.map Prod.fst
    rwa [List.enum_map_fst] at h
  · show jsStableSort descLe scored = _
    unfold jsStableSort
    rw [← hdle, ← hD, List.map_map]
    apply List.map_congr_left
    intro p hp
    have := hmem p hp
    simp only [Function.comp_apply]
    rw [List.getD_eq_getElem?_getD, this]
    rfl
  · have hnd : (D.map Prod.fst).Nodup := by
      have h := hperm.map Prod.fst
      rw [List.enum_map_fst] at h
      exact (h.nodup_iff).mpr (List.nodup_range _)
    rw [List.Nodup, List.pairwise_map] at hnd
    rw [List.pairwise_map]
    have hcomb := hpair.and hnd
    refine hcomb.imp_of_mem ?_
    intro p q hp hq ⟨hle, hne⟩
    have hps : (scored.getD p.1 default) = p.2 := by
      rw [List.getD_eq_getElem?_getD, hmem p hp]
      rfl
    have hqs : (scored.getD q.1 default) = q.2 := by
      rw [List.getD_eq_getElem?_getD, hmem q hq]
      rfl
    unfold stableBefore scoreAt
    rw [hps, hqs]
    rw [hdle] at hle
    unfold decoratedLe descLe at hle
    rw [Bool.and_eq_true, Bool.or_eq_true] at hle
    obtain ⟨h1, h2⟩ := hle
    rw [decide_eq_true_eq] at h1
    by_cases h3 : p.2.rankingScore ≤ q.2.rankingScore
    · right
      refine ⟨by omega, ?_⟩
      rcases h2 with h | h
      · rw [Bool.not_eq_true'] at h
        rw [decide_eq_false_iff_not] at h
        omega
      · rw [decide_eq_true_eq] at h
        omega
    · left
      omega

theorem mapIdx_map_inner {α β γ : Type} (g : α → β) :
    ∀ (l : List α) (f : Nat → β → γ), (l.map g).mapIdx f = l.mapIdx (fun i a => f i (g a))
  | [], _ => rfl
  | a :: as, f => by
    rw [List.map_cons, List.mapIdx_cons, List.mapIdx_cons, mapIdx_map_inner g as]

theorem map_mapIdx_inner {α β γ : Type} (g : β → γ) :
    ∀ (l : List α) (f : Nat → α → β), (l.mapIdx f).map g = l.mapIdx (fun i a => g (f i a))
  | [], _ => rfl
  | a :: as, f => by
    rw [List.mapIdx_cons, List.map_cons, List.mapIdx_cons, map_mapIdx_inner g as]

theorem mapIdx_index {α : Type} (l : List α) :
    l.mapIdx (fun i _ => i + 1) = (List.range l.length).map (fun i => i + 1) := by
  rw [List.mapIdx_eq_enum_map, ← List.enum_map_fst l, List.map_map]
  rfl

theorem rankJobs_sorted_stable_aux (jobs : List Job) (userResume : Resume)
    (userLocation : String) (customWeights : CustomWeights) (now : Int) :
    ∃ ixs : List Nat,
      let scored := jobs.map (scoreJob (effectiveWeights customWeights)
        (userResume.parsedSkills.getD []) (userResume.yearsOfExperience.getD 0)
        userLocation now)
      let out := rankJobs jobs userResume userLocation customWeights now
      ixs.Perm (List.range jobs.length) ∧
      out = ixs.mapIdx (fun pos k => { scored.getD k default with rank := pos + 1 }) ∧
      ixs.Pairwise (stableBefore scored) ∧
      out.map RankedJob.rank = (List.range jobs.length).map (fun i => i + 1) ∧
      out.Pairwise (fun a b => b.rankingScore ≤ a.rankingScore) := by
  by_cases hj : jobs.length = 0
  · rw [List.length_eq_zero] at hj
    subst hj
    exact ⟨[], by simp [rankJobs], rfl, by simp, by simp [rankJobs], by simp [rankJobs]⟩
  · obtain ⟨ixs, h1, h2, h3⟩ := sortByScoreDesc_exists
      (jobs.map (scoreJob (effectiveWeights customWeights)
        (userResume.parsedSkills.getD []) (userResume.yearsOfExperience.getD 0)
        userLocation now))
    refine ⟨ixs, ?_, ?_, h3, ?_, ?_⟩
    · rwa [List.length_map] at h1
    · show rankJobs jobs userResume userLocation customWeights now = _
      unfold rankJobs
      rw [if_neg hj]
      dsimp only
      rw [h2]
      unfold assignRanks
      rw [mapIdx_map_inner]
    · show (rankJobs jobs userResume userLocation customWeights now).map RankedJob.rank = _
      have hout : rankJobs jobs userResume userLocation customWeights now =
          ixs.mapIdx (fun pos k =>
            { (jobs.map (scoreJob (effectiveWeights customWeights)
                (userResume.parsedSkills.getD []) (userResume.yearsOfExperience.getD 0)
                userLocation now)).getD k default with rank := pos + 1 }) := by
        unfold rankJobs
        rw [if_neg hj]
        dsimp only
        rw [h2]
        unfold assignRanks
        rw [mapIdx_map_inner]
      rw [hout, map_mapIdx_inner]
      have hlen : ixs.length = jobs.length := by
        have := h1.length_eq
        simpa [List.length_map] using this
      rw [show (fun (i : Nat) (_ : Nat) => ({ (jobs.map (scoreJob (effectiveWeights customWeights)
          (userResume.parsedSkills.getD []) (userResume.yearsOfExperience.getD 0)
          userLocation now)).getD _ default with rank := i + 1 } : RankedJob).rank) =
          (fun (i : Nat) (_ : Nat) => i + 1) from rfl]
      rw [mapIdx_index, hlen]
    · show (rankJobs jobs userResume userLocation customWeights now).Pairwise _
      have hout : rankJobs jobs userResume userLocation customWeights now =
          ixs.mapIdx (fun pos k =>
            { (jobs.map (scoreJob (effectiveWeights customWeights)
                (userResume.parsedSkills.getD []) (userResume.yearsOfExperience.getD 0)
                userLocation now)).getD k default with rank := pos + 1 }) := by
        unfold rankJobs
        rw [if_neg hj]
        dsimp only
        rw [h2]
        unfold assignRanks
        rw [mapIdx_map_inner]
      rw [hout, List.mapIdx_eq_enum_map, List.pairwise_map]
      have h3' := h3
      rw [← List.enum_map_snd ixs, List.pairwise_map] at h3'
      refine h3'.imp ?_
      intro p q h
      unfold stableBefore scoreAt at h
      show (_ : RankedJob).rankingScore ≤ (_ : RankedJob).rankingScore
      rcases h with h | ⟨h, _⟩
      · exact le_of_lt h
      · exact le_of_eq h.symm

theorem skillMatch_scenarioAB : calculateSkillMatch (some "vue flask php aws docker") (some ["vue","flask","php","aws"]) = 80 := by
  unfold calculateSkillMatch
  rw [if_neg (by simp [strFalsy])]
  dsimp only
  simp only [Option.getD_some]
  rw [show extractJobSkills "vue flask php aws docker" = ["vue", "flask", "php", "aws", "docker"] from rfl]
  rw [if_neg (by norm_num)]
  rw [show (List.filter
      (fun skill => (["vue", "flask", "php", "aws"] : List String).any fun userSkill =>
        jsIncludes (normalize userSkill) (normalize skill) ||
          jsIncludes (normalize skill) (normalize userSkill))
      ["vue", "flask", "php", "aws", "docker"]).length = 4 from rfl]
  norm_num [round_eq]

theorem skillMatch_scenarioC : calculateSkillMatch (some "vue flask php docker kubernetes") (some ["vue","flask","php","aws"]) = 60 := by
  unfold calculateSkillMatch
  rw [if_neg (by simp [strFalsy])]
  dsimp only
  simp only [Option.getD_some]
  rw [show extractJobSkills "vue flask php docker kubernetes" = ["vue", "flask", "php", "docker", "kubernetes"] from rfl]
  rw [if_neg (by norm_num)]
  rw [show (List.filter
      (fun skill => (["vue", "flask", "php", "aws"] : List String).any fun userSkill =>
        jsIncludes (normalize userSkill) (normalize skill) ||
          jsIncludes (normalize skill) (normalize userSkill))
      ["vue", "flask", "php", "docker", "kubernetes"]).length = 3 from rfl]
  norm_num [round_eq]
theorem scoreJob_scenarioA : (scoreJob ⟨1, 0, 0, 0⟩ ["vue", "flask", "php", "aws"] 0 "" 0 scenarioJobA).rankingScore = 80 := by
  unfold scoreJob
  dsimp only
  rw [show (scenarioJobA.description.getD "") = "vue flask php aws docker" from rfl]
  rw [skillMatch_scenarioAB]
  rw [show calculateExperienceFit "vue flask php aws docker" 0 = 75 from rfl]
  rw [show calculateLocationMatch (some (scenarioJobA.location.getD "")) (some "") = 50 from rfl]
  rw [show calculateRecency scenarioJobA.postedDate 0 = 50 from rfl]
  norm_num [round_eq]
theorem scoreJob_scenarioB : (scoreJob ⟨1, 0, 0, 0⟩ ["vue", "flask", "php", "aws"] 0 "" 0 scenarioJobB).rankingScore = 80 := by
  unfold scoreJob
  dsimp only
  rw [show (scenarioJobB.description.getD "") = "vue flask php aws docker" from rfl]
  rw [skillMatch_scenarioAB]
  rw [show calculateExperienceFit "vue flask php aws docker" 0 = 75 from rfl]
  rw [show calculateLocationMatch (some (scenarioJobB.location.getD "")) (some "") = 50 from rfl]
  rw [show calculateRecency scenarioJobB.postedDate 0 = 50 from rfl]
  norm_num [round_eq]

theorem scoreJob_scenarioC : (scoreJob ⟨1, 0, 0, 0⟩ ["vue", "flask", "php", "aws"] 0 "" 0 scenarioJobC).rankingScore = 60 := by
  unfold scoreJob
  dsimp only
  rw [show (scenarioJobC.description.getD "") = "vue flask php docker kubernetes" from rfl]
  rw [skillMatch_scenarioC]
  rw [show calculateExperienceFit "vue flask php docker kubernetes" 0 = 75 from rfl]
  rw [show calculateLocationMatch (some (scenarioJobC.location.getD "")) (some "") = 50 from rfl]
  rw [show calculateRecency scenarioJobC.postedDate 0 = 50 from rfl]
  norm_num [round_eq]

theorem rankJobs_scenario_eval :
    (rankJobs [scenarioJobA, scenarioJobB, scenarioJobC] scenarioResume ""
        scenarioWeights 0).map (fun r => (r.job.title, r.rankingScore, r.rank)) =
      [(some "A", (80 : Int), (1 : Nat)), (some "B", 80, 2), (some "C", 60, 3)] := by
  have hw : effectiveWeights scenarioWeights = ⟨1, 0, 0, 0⟩ := by
    simp only [effectiveWeights, overriddenWeights, weightSum, scenarioWeights, Option.getD_some]
    norm_num
  have hrj : rankJobs [scenarioJobA, scenarioJobB, scenarioJobC] scenarioResume ""
      scenarioWeights 0 = assignRanks (sortByScoreDesc
        [scoreJob ⟨1, 0, 0, 0⟩ ["vue", "flask", "php", "aws"] 0 "" 0 scenarioJobA,
         scoreJob ⟨1, 0, 0, 0⟩ ["vue", "flask", "php", "aws"] 0 "" 0 scenarioJobB,
         scoreJob ⟨1, 0, 0, 0⟩ ["vue", "flask", "php", "aws"] 0 "" 0 scenarioJobC]) := by
    unfold rankJobs
    rw [if_neg (by norm_num)]
    dsimp only
    rw [hw]
    rfl
  rw [hrj]
  have d1 : decoratedLe descLe
      (0, scoreJob ⟨1, 0, 0, 0⟩ ["vue", "flask", "php", "aws"] 0 "" 0 scenarioJobA)
      (1, scoreJob ⟨1, 0, 0, 0⟩ ["vue", "flask", "php", "aws"] 0 "" 0 scenarioJobB) = true := by
    unfold decoratedLe descLe
    rw [scoreJob_scenarioA, scoreJob_scenarioB]
    rfl
  have d2 : decoratedLe descLe
      (0, scoreJob ⟨1, 0, 0, 0⟩ ["vue", "flask", "php", "aws"] 0 "" 0 scenarioJobA)
      (2, scoreJob ⟨1, 0, 0, 0⟩ ["vue", "flask", "php", "aws"] 0 "" 0 scenarioJobC) = true := by
    unfold decoratedLe descLe
    rw [scoreJob_scenarioA, scoreJob_scenarioC]
    rfl
  have d3 : decoratedLe descLe
      (1, scoreJob ⟨1, 0, 0, 0⟩ ["vue", "flask", "php", "aws"] 0 "" 0 scenarioJobB)
      (2, scoreJob ⟨1, 0, 0, 0⟩ ["vue", "flask", "php", "aws"] 0 "" 0 scenarioJobC) = true := by
    unfold decoratedLe descLe
    rw [scoreJob_scenarioB, scoreJob_scenarioC]
    rfl
  have hsort : sortByScoreDesc
      [scoreJob ⟨1, 0, 0, 0⟩ ["vue", "flask", "php", "aws"] 0 "" 0 scenarioJobA,
       scoreJob ⟨1, 0, 0, 0⟩ ["vue", "flask", "php", "aws"] 0 "" 0 scenarioJobB,
       scoreJob ⟨1, 0, 0, 0⟩ ["vue", "flask", "php", "aws"] 0 "" 0 scenarioJobC] =
      [scoreJob ⟨1, 0, 0, 0⟩ ["vue", "flask", "php", "aws"] 0 "" 0 scenarioJobA,
       scoreJob ⟨1, 0, 0, 0⟩ ["vue", "flask", "php", "aws"] 0 "" 0 scenarioJobB,
       scoreJob ⟨1, 0, 0, 0⟩ ["vue", "flask", "php", "aws"] 0 "" 0 scenarioJobC] := by
    show ((List.enum
      [scoreJob ⟨1, 0, 0, 0⟩ ["vue", "flask", "php", "aws"] 0 "" 0 scenarioJobA,
       scoreJob ⟨1, 0, 0, 0⟩ ["vue", "flask", "php", "aws"] 0 "" 0 scenarioJobB,
       scoreJob ⟨1, 0, 0, 0⟩ ["vue", "flask", "php", "aws"] 0 "" 0 scenarioJobC]).foldl
      (fun acc p => insertBy (decoratedLe descLe) p acc) []).map Prod.snd = _
    rw [show (List.enum
      [scoreJob ⟨1, 0, 0, 0⟩ ["vue", "flask", "php", "aws"] 0 "" 0 scenarioJobA,
       scoreJob ⟨1, 0, 0, 0⟩ ["vue", "flask", "php", "aws"] 0 "" 0 scenarioJobB,
       scoreJob ⟨1, 0, 0, 0⟩ ["vue", "flask", "php", "aws"] 0 "" 0 scenarioJobC]) =
      [(0, scoreJob ⟨1, 0, 0, 0⟩ ["vue", "flask", "php", "aws"] 0 "" 0 scenarioJobA),
       (1, scoreJob ⟨1, 0, 0, 0⟩ ["vue", "flask", "php", "aws"] 0 "" 0 scenarioJobB),
       (2, scoreJob ⟨1, 0, 0, 0⟩ ["vue", "flask", "php", "aws"] 0 "" 0 scenarioJobC)] from rfl]
    simp only [List.foldl_cons, List.foldl_nil, insertBy, d1, d2, d3, if_true, List.map_cons,
      List.map_nil]
  rw [hsort]
  unfold assignRanks
  simp only [List.mapIdx_cons, List.mapIdx_nil, List.map_cons, List.map_nil]
  rw [scoreJob_scenarioA, scoreJob_scenarioB, scoreJob_scenarioC]
  rw [show (scoreJob ⟨1, 0, 0, 0⟩ ["vue", "flask", "php", "aws"] 0 "" 0 scenarioJobA).job.title
      = some "A" from rfl]
  rw [show (scoreJob ⟨1, 0, 0, 0⟩ ["vue", "flask", "php", "aws"] 0 "" 0 scenarioJobB).job.title
      = some "B" from rfl]
  rw [show (scoreJob ⟨1, 0, 0, 0⟩ ["vue", "flask", "php", "aws"] 0 "" 0 scenarioJobC).job.title
      = some "C" from rfl]

/-- C8.  For every job list, resume, location and weight map, the output of
`rankJobs` is the scored input list read along an index permutation `ixs` of
the input positions: `ixs` is sorted strictly by descending ranking score with
ties broken by original input position (JS `sort` is stable), each output
entry is the corresponding scored job with only its `rank` replaced, and the
`rank` fields are 1, 2, …, n in output order, so the output is sorted
descending by `rankingScore`.  In particular the scenario jobs A, B, C with
composite scores 80, 80, 60 come out in the order A, B, C with ranks 1, 2, 3. -/
theorem rankJobs_ranking_order :
    (∀ (jobs : List Job) (userResume : Resume) (userLocation : String)
        (customWeights : CustomWeights) (now : Int),
      ∃ ixs : List Nat,
        let scored := jobs.map (scoreJob (effectiveWeights customWeights)
          (userResume.parsedSkills.getD []) (userResume.yearsOfExperience.getD 0)
          userLocation now)
        let out := rankJobs jobs userResume userLocation customWeights now
        ixs.Perm (List.range jobs.length) ∧
        out = ixs.mapIdx (fun pos k => { scored.getD k default with rank := pos + 1 }) ∧
        ixs.Pairwise (stableBefore scored) ∧
        out.map RankedJob.rank = (List.range jobs.length).map (fun i => i + 1) ∧
        out.Pairwise (fun a b => b.rankingScore ≤ a.rankingScore)) ∧
    (rankJobs [scenarioJobA, scenarioJobB, scenarioJobC] scenarioResume ""
        scenarioWeights 0).map (fun r => (r.job.title, r.rankingScore, r.rank)) =
      [(some "A", (80 : Int), (1 : Nat)), (some "B", 80, 2), (some "C", 60, 3)] :=
  ⟨rankJobs_sorted_stable_aux, rankJobs_scenario_eval⟩

/-! ### C10: frame property of ranking -/

theorem mapIdx_snd {α β : Type} (g : α → β) : ∀ l : List α,
    l.mapIdx (fun _ a => g a) = l.map g
  | [] => rfl
  | a :: as => by
    rw [List.mapIdx_cons, List.map_cons]
    exact congrArg _ (mapIdx_snd g as)

/-- C10.  Frame property: the jobs carried by `rankJobs`'s output are exactly
the input jobs — the spread `{ ...job, rankingScore, scoreBreakdown, weights,
explanation, rank }` copies every field of the input job object unchanged
(modelled by the nested `job` record of `RankedJob`), and only the five listed
fields are added or overwritten. -/
theorem rankJobs_frame (jobs : List Job) (userResume : Resume) (userLocation : String)
    (customWeights : CustomWeights) (now : Int) :
    ((rankJobs jobs userResume userLocation customWeights now).map RankedJob.job).Perm
      jobs := by
  by_cases hj : jobs.length = 0
  · rw [List.length_eq_zero] at hj
    subst hj
    simp [rankJobs]
  · unfold rankJobs
    rw [if_neg hj]
    dsimp only
    unfold assignRanks
    rw [map_mapIdx_inner]
    dsimp only
    rw [mapIdx_snd RankedJob.job]
    refine ((jsStableSort_perm _ _).map RankedJob.job).trans ?_
    rw [List.map_map]
    rw [show (RankedJob.job ∘ scoreJob (effectiveWeights customWeights)
      (userResume.parsedSkills.getD []) (userResume.yearsOfExperience.getD 0)
      userLocation now) = id from rfl]
    rw [List.map_id]

end JobApplier
